import Mathlib

/-!
Verification of the ADD/CVD trade-remedy analysis scripts
(`prod_analysis.py`, `add_cvd_recepient_map.py`, `add_cvd_world_map.py`).

The scripts operate on an in-memory table of case records read from a
spreadsheet.  We embed the table as a list of rows whose cells are either a
string or the pandas missing value NaN (whose Python string representation is
"nan").  Pure Python/pandas string operations (`str.strip`, `str.split(sep)`,
substring containment as used by `Series.str.contains` on the literal patterns
occurring in this repository) are embedded as executable functions on
`List Char`.
-/

namespace ADDCVD

/-- A spreadsheet cell: a string value or the pandas missing value NaN. -/
inductive Cell where
  | s (v : String)
  | nan
deriving DecidableEq

/-- Python `str(item)` on a cell; `str` of the pandas missing value
(a float NaN) is the literal `"nan"`. -/
def pyStr : Cell → String
  | .s v => v
  | .nan => "nan"

/-- Extract the string of a non-missing cell. -/
def cellVal : Cell → Option String
  | .s v => some v
  | .nan => none

def isWS (c : Char) : Bool := c.isWhitespace

/-- Python `str.strip()` on a character list: drop leading and trailing
whitespace. -/
def stripChars (l : List Char) : List Char :=
  ((l.dropWhile isWS).reverse.dropWhile isWS).reverse

/-- Python `str.strip()`. -/
def pyStrip (v : String) : String := String.mk (stripChars v.toList)

/-- If `ss` is a leading segment of `cs`, return the remainder. -/
def takeAfter : List Char → List Char → Option (List Char)
  | [], l => some l
  | _ :: _, [] => none
  | a :: as, b :: bs => if a = b then takeAfter as bs else none

/-- Prepend a character to the first piece of a split result. -/
def consHead (c : Char) : List (List Char) → List (List Char)
  | [] => [[c]]
  | h :: t => (c :: h) :: t

/-- Python `str.split(sep)` for a non-empty separator `s :: ss`: greedy
leftmost non-overlapping occurrences; `"".split(sep) = [""]`.  The `fuel`
argument only makes the recursion structural; the wrapper `splitSep` passes
the input length, which suffices because each step consumes at least one
character. -/
def splitSepGo (s : Char) (ss : List Char) : Nat → List Char → List (List Char)
  | _, [] => [[]]
  | 0, _ :: _ => [[]]
  | fuel + 1, c :: cs =>
    if c = s then
      match takeAfter ss cs with
      | some rest => [] :: splitSepGo s ss fuel rest
      | none => consHead c (splitSepGo s ss fuel cs)
    else consHead c (splitSepGo s ss fuel cs)

def splitSep (s : Char) (ss : List Char) (l : List Char) : List (List Char) :=
  splitSepGo s ss l.length l

/-- Python `v.split(sep)` where `sep = sh :: st` (e.g. `", "` or `"/"`). -/
def pySplit (sh : Char) (st : List Char) (v : String) : List String :=
  (splitSep sh st v.toList).map String.mk

/-- `needle` is a leading segment of `hay`. -/
def hasPrefixL : List Char → List Char → Bool
  | [], _ => true
  | _ :: _, [] => false
  | a :: as, b :: bs => a == b && hasPrefixL as bs

/-- `needle` occurs contiguously inside `hay`. -/
def containsSubL (needle : List Char) : List Char → Bool
  | [] => hasPrefixL needle []
  | c :: cs => hasPrefixL needle (c :: cs) || containsSubL needle cs

/-- Substring containment, as performed by `Series.str.contains(pat)` for the
literal patterns used in this repository (remedy-type names and numeric
chapter codes contain no regex metacharacters). -/
def containsSub (hay needle : String) : Bool :=
  containsSubL needle.toList hay.toList

/-!  `collections.Counter` and `most_common`.  A counter is an
insertion-ordered association list from keys to positive counts; Python
`Counter(iterable)` records keys in first-encounter order.  `most_common(n)`
is a stable sort by count descending followed by truncation to `n` (CPython
documents `heapq.nlargest` as equivalent to a stable descending `sorted`). -/

/-- Add one occurrence of `k` to a counter. -/
def counterAdd {α : Type} [DecidableEq α] : List (α × Nat) → α → List (α × Nat)
  | [], k => [(k, 1)]
  | (a, n) :: t, k => if a = k then (a, n + 1) :: t else (a, n) :: counterAdd t k

/-- `collections.Counter(xs)` as an insertion-ordered association list. -/
def counter {α : Type} [DecidableEq α] (xs : List α) : List (α × Nat) :=
  xs.foldl counterAdd []

/-- The ordering used by `most_common`: `a` comes before `b` when `a` has the
larger (or equal) count. -/
def cntGE {α : Type} (a b : α × Nat) : Prop := b.2 ≤ a.2

instance {α : Type} : DecidableRel (@cntGE α) := fun a b => Nat.decLe b.2 a.2

instance {α : Type} : IsTotal (α × Nat) cntGE :=
  ⟨fun a b => Or.symm (Nat.le_total a.2 b.2)⟩

instance {α : Type} : IsTrans (α × Nat) cntGE :=
  ⟨fun _ _ _ h₁ h₂ => Nat.le_trans h₂ h₁⟩

/-- `Counter.most_common(n)`: stable sort by count descending, first `n`. -/
def mostCommon {α : Type} (l : List (α × Nat)) (n : Nat) : List (α × Nat) :=
  (List.insertionSort cntGE l).take n

/-- Sum of the per-key counts of an aggregation result. -/
def sumCounts {α : Type} (l : List (α × Nat)) : Nat :=
  (l.map (fun p => p.2)).sum

/-!  The case-record table.  One row per trade-remedy case, with the columns
the three scripts read: `Type`, `Trading partners`, `Member/Observer`,
`Product chapters`, `Products`.  `remedyTypeCol` models the `Remedy Type`
column: `none` means the column is absent (as in the freshly loaded table);
`add_cvd_world_map.get_world_with_data` assigns it in place. -/

structure CaseRow where
  typ : Cell
  tradingPartners : Cell
  memberObserver : Cell
  productChapters : Cell
  products : Cell
  remedyTypeCol : Option Cell := none
deriving DecidableEq

/-!  `prod_analysis.py` -/

/-- `clean_and_split(data_column)`: `str(item).split(", ")` per item, flatten,
then `strip()` each token (`prod_analysis.py` lines 11-23). -/
def clean_and_split (data_column : List Cell) : List String :=
  let split_items := data_column.map (fun item => pySplit ',' [' '] (pyStr item))
  split_items.flatten.map pyStrip

/-- The row filter of `get_top_partners`:
`data['Product chapters'].str.contains(str(chapter), na=False)`. -/
def chapterMatches (chapter : String) (r : CaseRow) : Bool :=
  match r.productChapters with
  | .nan => false
  | .s v => containsSub v chapter

/-- `get_top_partners(data, chapters, top_n=3)` (`prod_analysis.py` lines
25-42): for each chapter, count `Trading partners` over the rows whose
`Product chapters` cell contains the chapter string, and keep the
`most_common(top_n)` entries.  The Python dict is modelled as the
chapter-ordered association list. -/
def get_top_partners (data : List CaseRow) (chapters : List String)
    (top_n : Nat := 3) : List (String × List (Cell × Nat)) :=
  chapters.map (fun chapter =>
    (chapter,
     mostCommon
       (counter ((data.filter (chapterMatches chapter)).map
         (fun r => r.tradingPartners)))
       top_n))

/-!  Shared by the two map scripts. -/

/-- The row filter `df['Type'].str.contains(remedy_type, na=False)`. -/
def typeMatches (remedy_type : String) (r : CaseRow) : Bool :=
  match r.typ with
  | .nan => false
  | .s v => containsSub v remedy_type

/-- `df.groupby(col).size()`: rows with a missing key are dropped, the
remaining values are counted per distinct key.  (pandas additionally sorts
the resulting keys; we keep first-encounter order — no property below
depends on the key order, only on the key/count multiset, which agrees.) -/
def groupbySize (keys : List Cell) : List (String × Nat) :=
  counter (keys.filterMap cellVal)

/-- A row of the reference geometry table (Natural Earth `naturalearth_lowres`):
the `name` column used for joining plus a numeric attribute column
(`pop_est`) that may be missing. -/
structure GeoRow where
  name : String
  pop_est : Option Int
deriving DecidableEq

/-- A merged cell after `fillna(0)`: the original string, or the number `0`
substituted for a missing value. -/
inductive FCell where
  | s (v : String)
  | num (n : Int)
deriving DecidableEq

/-- One row of `world.merge(cases_count, how='left', left_on='name', ...)`
before `fillna`: the geometry columns plus the right-hand key column and the
count column, each `none` when the merge found no match. -/
structure MergedRow where
  name : String
  pop_est : Option Int
  joinKey : Option String
  case_count : Option Nat
deriving DecidableEq

/-- The rows the left merge produces for one geometry row `g`: one row per
right-hand entry whose key equals `g.name` exactly, or a single all-missing
row when there is none. -/
def mergeOne (cases_count : List (String × Nat)) (g : GeoRow) : List MergedRow :=
  match cases_count.filter (fun p => p.1 = g.name) with
  | [] => [⟨g.name, g.pop_est, none, none⟩]
  | ms => ms.map (fun p => ⟨g.name, g.pop_est, some p.1, some p.2⟩)

/-- `world.merge(cases_count, how='left', left_on='name', right_on=key)`. -/
def leftMerge (world : List GeoRow) (cases_count : List (String × Nat)) :
    List MergedRow :=
  (world.map (mergeOne cases_count)).flatten

/-- A merged row after `world_with_data.fillna(0, inplace=True)`: every
missing value in every column becomes `0`. -/
structure WorldDataRow where
  name : String
  pop_est : Int
  joinKey : FCell
  case_count : Int
deriving DecidableEq

/-- `fillna(0)` on one merged row. -/
def fillZero (r : MergedRow) : WorldDataRow :=
  ⟨r.name,
   r.pop_est.getD 0,
   match r.joinKey with
   | some v => FCell.s v
   | none => FCell.num 0,
   match r.case_count with
   | some n => (n : Int)
   | none => 0⟩

/-- `add_cvd_recepient_map.get_world_with_data_trading_partners(df, remedy_type)`
(lines 8-25): filter rows whose `Type` contains `remedy_type`, group by
`Trading partners`, left-merge onto the world table by name, `fillna(0)`.
The externally loaded world table is passed as a parameter. -/
def get_world_with_data_trading_partners (world : List GeoRow)
    (df : List CaseRow) (remedy_type : String) : List WorldDataRow :=
  let df_filtered := df.filter (typeMatches remedy_type)
  let cases_count := groupbySize (df_filtered.map (fun r => r.tradingPartners))
  (leftMerge world cases_count).map fillZero

/-!  `add_cvd_world_map.py` -/

/-- `df['Type'].str.split('/').str[-1].str.strip()` on one cell; the `.str`
accessor propagates a missing value. -/
def remedyTypeOf : Cell → Cell
  | .nan => .nan
  | .s v => .s (pyStrip ((pySplit '/' [] v).getLastD ""))

/-- The in-place assignment `df['Remedy Type'] = ...` applied to one row. -/
def addRemedyCol (r : CaseRow) : CaseRow :=
  { r with remedyTypeCol := some (remedyTypeOf r.typ) }

/-- A (`Member/Observer`, `Remedy Type`) pair of a row, when both are
non-missing; `groupby` drops rows where either key is missing. -/
def mrPairCol (r : CaseRow) : Option (String × String) :=
  match r.memberObserver, r.remedyTypeCol with
  | .s m, some (.s t) => some (m, t)
  | _, _ => none

/-- The (`Member/Observer`, `Remedy Type`) key pairs the two-key `groupby`
of `add_cvd_world_map` groups on (rows with a missing key dropped). -/
def wmPairs (df : List CaseRow) : List (String × String) :=
  (df.map addRemedyCol).filterMap mrPairCol

/-- The column labels of the `unstack(fill_value=0)` cross-tabulation: the
distinct remedy types occurring in the key pairs. -/
def wmCols (df : List CaseRow) : List String :=
  ((wmPairs df).map (fun p => p.2)).dedup

/-- The index of the cross-tabulation: the distinct `Member/Observer` values
occurring in the key pairs. -/
def wmMembers (df : List CaseRow) : List String :=
  ((wmPairs df).map (fun p => p.1)).dedup

/-- The selected column `cases_count[[remedy_type]]` of the cross-tabulation:
for each member, the number of its rows with this remedy type (`0`-filled by
`unstack(fill_value=0)` for members that have none). -/
def wmCasesCount (df : List CaseRow) (remedy_type : String) :
    List (String × Nat) :=
  (wmMembers df).map (fun m =>
    (m, (wmPairs df).countP (fun p => p.1 == m && p.2 == remedy_type)))

/-- `add_cvd_world_map.get_world_with_data(df, remedy_type)` (lines 6-27):
derive the `Remedy Type` column in place, cross-tabulate
`groupby(['Member/Observer', 'Remedy Type']).size().unstack(fill_value=0)`,
select the `remedy_type` column — a `KeyError` (modelled as `Except.error`)
when no row produced that column — then left-merge onto the world table and
`fillna(0)`.  The first component is the input table after the call, making
the in-place column assignment observable. -/
def get_world_with_data (world : List GeoRow) (df : List CaseRow)
    (remedy_type : String) :
    List CaseRow × Except Unit (List WorldDataRow) :=
  if remedy_type ∈ wmCols df then
    (df.map addRemedyCol,
     Except.ok ((leftMerge world (wmCasesCount df remedy_type)).map fillZero))
  else
    (df.map addRemedyCol, Except.error ())

/-!  Concrete sample inputs used to evaluate the pipelines. -/

/-- A two-entity reference geometry table; Brazil has a missing `pop_est`. -/
def sampleWorld : List GeoRow := [⟨"India", some 5⟩, ⟨"Brazil", none⟩]

/-- A one-row case table with every key column populated. -/
def sampleDf : List CaseRow :=
  [⟨Cell.s "Anti-dumping", Cell.s "India", Cell.s "India", Cell.s "29",
    Cell.s "widgets", none⟩]

/-- A one-row case table whose `Product chapters` cell holds two codes. -/
def dfTok : List CaseRow :=
  [⟨Cell.s "Anti-dumping", Cell.s "China", Cell.nan, Cell.s "62, 63",
    Cell.nan, none⟩]

/-- A one-row case table whose single chapter code is `29`. -/
def dfChap : List CaseRow :=
  [⟨Cell.s "Anti-dumping", Cell.s "China", Cell.nan, Cell.s "29",
    Cell.nan, none⟩]

/-- A row whose chapter list is `29, 30`. -/
def rowJP : CaseRow :=
  ⟨Cell.s "Anti-dumping", Cell.s "Japan", Cell.nan, Cell.s "29, 30",
   Cell.nan, none⟩

/-- Three case rows over chapters 29/30 with a repeated trading partner. -/
def data3 : List CaseRow :=
  [⟨Cell.s "Anti-dumping", Cell.s "China", Cell.nan, Cell.s "29", Cell.nan, none⟩,
   rowJP,
   ⟨Cell.s "Anti-dumping", Cell.s "China", Cell.nan, Cell.s "29", Cell.nan, none⟩]

/-- A one-row case table whose `Type` cell is a combined
`Member/Observer / Type` string. -/
def dfSlash : List CaseRow :=
  [⟨Cell.s "India / Anti-dumping", Cell.nan, Cell.s "India", Cell.nan,
    Cell.nan, none⟩]

/-!  Lemmas about `counter`. -/

theorem counterAdd_fst {α : Type} [DecidableEq α] (l : List (α × Nat)) (k : α) :
    (counterAdd l k).map Prod.fst =
      if k ∈ l.map Prod.fst then l.map Prod.fst else l.map Prod.fst ++ [k] := by
  induction l with
  | nil => simp [counterAdd]
  | cons p t ih =>
    obtain ⟨a, n⟩ := p
    by_cases hak : a = k
    · simp [counterAdd, hak]
    · simp only [counterAdd, if_neg hak, List.map_cons, ih]
      have hne : ¬(k = a) := fun h => hak h.symm
      by_cases hk : k ∈ t.map Prod.fst <;>
        simp [List.mem_cons, hk, hne]

theorem counter_keys_nodup {α : Type} [DecidableEq α] (xs : List α) :
    ((counter xs).map Prod.fst).Nodup := by
  suffices h : ∀ (l : List (α × Nat)), (l.map Prod.fst).Nodup →
      ((xs.foldl counterAdd l).map Prod.fst).Nodup by
    exact h [] (by simp)
  induction xs with
  | nil => intro l hl; simpa using hl
  | cons x t ih =>
    intro l hl
    simp only [List.foldl_cons]
    refine ih (counterAdd l x) ?_
    rw [counterAdd_fst]
    split
    · exact hl
    · simp only [List.nodup_append, List.nodup_singleton]
      exact ⟨hl, trivial, by simpa using fun h => by simp_all⟩

theorem counterAdd_sum {α : Type} [DecidableEq α] (l : List (α × Nat)) (k : α) :
    sumCounts (counterAdd l k) = sumCounts l + 1 := by
  induction l with
  | nil => simp [counterAdd, sumCounts]
  | cons p t ih =>
    obtain ⟨a, n⟩ := p
    by_cases hak : a = k
    · simp [counterAdd, hak, sumCounts]
      omega
    · simp only [counterAdd, if_neg hak]
      simp only [sumCounts, List.map_cons, List.sum_cons] at ih ⊢
      omega

/-- The counts of `Counter(xs)` sum to the number of counted items. -/
theorem counter_sum {α : Type} [DecidableEq α] (xs : List α) :
    sumCounts (counter xs) = xs.length := by
  suffices h : ∀ (l : List (α × Nat)),
      sumCounts (xs.foldl counterAdd l) = sumCounts l + xs.length by
    simpa [sumCounts] using h []
  induction xs with
  | nil => intro l; simp
  | cons x t ih =>
    intro l
    simp only [List.foldl_cons, List.length_cons]
    rw [ih (counterAdd l x), counterAdd_sum]
    omega

/-!  Lemmas about the left merge. -/

theorem mergeOne_of_not_mem {cs : List (String × Nat)} (g : GeoRow)
    (h : g.name ∉ cs.map Prod.fst) :
    mergeOne cs g = [⟨g.name, g.pop_est, none, none⟩] := by
  have hf : cs.filter (fun p => p.1 = g.name) = [] := by
    refine List.filter_eq_nil_iff.2 fun p hp hq => ?_
    exact h (List.mem_map.2 ⟨p, hp, by simpa using hq⟩)
  simp [mergeOne, hf]

theorem filter_key_single {cs : List (String × Nat)} (nm : String)
    (hk : (cs.map Prod.fst).Nodup) :
    cs.filter (fun p => p.1 = nm) = [] ∨
      ∃ n, cs.filter (fun p => p.1 = nm) = [(nm, n)] := by
  induction cs with
  | nil => exact Or.inl rfl
  | cons p t ih =>
    obtain ⟨a, n⟩ := p
    simp only [List.map_cons, List.nodup_cons] at hk
    by_cases ha : a = nm
    · right
      refine ⟨n, ?_⟩
      have hft : t.filter (fun p => p.1 = nm) = [] := by
        refine List.filter_eq_nil_iff.2 fun q hq hqe => ?_
        exact hk.1 (ha ▸ (by simpa using hqe) ▸ List.mem_map_of_mem Prod.fst hq)
      simp [List.filter_cons, ha, hft]
    · have := ih hk.2
      simpa [List.filter_cons, ha] using this

theorem mergeOne_single {cs : List (String × Nat)} (g : GeoRow)
    (hk : (cs.map Prod.fst).Nodup) :
    mergeOne cs g = [⟨g.name, g.pop_est, none, none⟩] ∨
      ∃ n, mergeOne cs g = [⟨g.name, g.pop_est, some g.name, some n⟩] := by
  rcases filter_key_single g.name hk with hf | ⟨n, hf⟩
  · exact Or.inl (by simp [mergeOne, hf])
  · exact Or.inr ⟨n, by simp [mergeOne, hf]⟩

theorem mergeOne_mem {cs : List (String × Nat)} {g : GeoRow} {m : MergedRow}
    (hm : m ∈ mergeOne cs g) : m.name = g.name ∧ m.pop_est = g.pop_est := by
  rcases hf : cs.filter (fun p => p.1 = g.name) with _ | ⟨p, t⟩
  · simp only [mergeOne, hf, List.mem_singleton] at hm
    simp [hm]
  · simp only [mergeOne, hf, List.mem_map] at hm
    obtain ⟨q, _, rfl⟩ := hm
    exact ⟨rfl, rfl⟩

theorem mergeOne_head_mem (cs : List (String × Nat)) (g : GeoRow) :
    ∃ m ∈ mergeOne cs g, m.name = g.name ∧ m.pop_est = g.pop_est := by
  have hne : mergeOne cs g ≠ [] := by
    rcases hf : cs.filter (fun p => p.1 = g.name) with _ | ⟨p, t⟩ <;>
      simp [mergeOne, hf]
  obtain ⟨m, hm⟩ := List.exists_mem_of_ne_nil _ hne
  exact ⟨m, hm, mergeOne_mem hm⟩

theorem leftMerge_name_map (world : List GeoRow) {cs : List (String × Nat)}
    (hk : (cs.map Prod.fst).Nodup) :
    (leftMerge world cs).map (fun m => m.name) = world.map (fun g => g.name) := by
  induction world with
  | nil => rfl
  | cons g ws ih =>
    have hsplit : leftMerge (g :: ws) cs = mergeOne cs g ++ leftMerge ws cs := by
      simp [leftMerge]
    rw [hsplit, List.map_append, ih]
    rcases mergeOne_single g hk with h1 | ⟨n, h1⟩ <;> simp [h1]

theorem leftMerge_length (world : List GeoRow) {cs : List (String × Nat)}
    (hk : (cs.map Prod.fst).Nodup) :
    (leftMerge world cs).length = world.length := by
  have := congrArg List.length (leftMerge_name_map world hk)
  simpa using this

/-!  Lemmas about the embedded Python string operations. -/

theorem dropWhile_idem (p : Char → Bool) (l : List Char) :
    (l.dropWhile p).dropWhile p = l.dropWhile p := by
  induction l with
  | nil => rfl
  | cons c cs ih =>
    by_cases hc : p c
    · simp [List.dropWhile_cons, hc, ih]
    · simp [List.dropWhile_cons, hc]

theorem dropWhile_eq_self_of_isPre {p : Char → Bool} {x l : List Char}
    (hl : l.dropWhile p = l) (hx : x <+: l) : x.dropWhile p = x := by
  cases x with
  | nil => rfl
  | cons c t =>
    obtain ⟨s, hs⟩ := hx
    have hc : ¬p c := by
      have := List.dropWhile_eq_self_iff.1 hl
      subst hs
      simpa using this (by simp)
    simp [List.dropWhile_cons, hc]

theorem stripChars_dropWhile (l : List Char) :
    (stripChars l).dropWhile isWS = stripChars l := by
  refine dropWhile_eq_self_of_isPre (dropWhile_idem isWS l) ?_
  have hsuf : ((l.dropWhile isWS).reverse.dropWhile isWS) <:+ (l.dropWhile isWS).reverse :=
    List.dropWhile_suffix isWS
  have := List.reverse_prefix.2 hsuf
  simpa [stripChars] using this

theorem stripChars_idem (l : List Char) :
    stripChars (stripChars l) = stripChars l := by
  have h1 : (stripChars l).dropWhile isWS = stripChars l := stripChars_dropWhile l
  have h2 : (stripChars l).reverse.dropWhile isWS = (stripChars l).reverse := by
    simp only [stripChars, List.reverse_reverse]
    exact dropWhile_idem isWS _
  show (((stripChars l).dropWhile isWS).reverse.dropWhile isWS).reverse = stripChars l
  rw [h1, h2, List.reverse_reverse]

/-- Python `strip` is idempotent: its output is already trimmed. -/
theorem pyStrip_idem (v : String) : pyStrip (pyStrip v) = pyStrip v := by
  simp only [pyStrip]
  exact congrArg String.mk (stripChars_idem v.toList)

theorem stripChars_isInf (l : List Char) : stripChars l <:+: l := by
  have hsuf : l.dropWhile isWS <:+ l := List.dropWhile_suffix isWS
  have hpre : stripChars l <+: l.dropWhile isWS := by
    have h := List.reverse_prefix.2 (List.dropWhile_suffix (l := (l.dropWhile isWS).reverse) isWS)
    simpa [stripChars] using h
  exact hpre.isInfix.trans hsuf.isInfix

theorem takeAfter_suffix :
    ∀ (ss cs rest : List Char), takeAfter ss cs = some rest → rest <:+ cs
  | [], l, rest, h => by
      simp only [takeAfter, Option.some.injEq] at h
      exact h ▸ List.suffix_refl l
  | _ :: _, [], _, h => by simp [takeAfter] at h
  | a :: as, b :: bs, rest, h => by
      simp only [takeAfter] at h
      split at h
      · exact (takeAfter_suffix as bs rest h).trans (List.suffix_cons b bs)
      · exact absurd h (by simp)

theorem splitSepGo_parts (s : Char) (ss : List Char) :
    ∀ (fuel : Nat) (l : List Char),
      (∃ h t, splitSepGo s ss fuel l = h :: t ∧ h <+: l) ∧
        ∀ p ∈ splitSepGo s ss fuel l, p <:+: l := by
  intro fuel
  induction fuel with
  | zero =>
    intro l
    cases l with
    | nil => exact ⟨⟨[], [], rfl, List.nil_prefix⟩, by simp [splitSepGo]⟩
    | cons c cs => exact ⟨⟨[], [], rfl, List.nil_prefix⟩, by simp [splitSepGo]⟩
  | succ fuel ih =>
    intro l
    cases l with
    | nil => exact ⟨⟨[], [], rfl, List.nil_prefix⟩, by simp [splitSepGo]⟩
    | cons c cs =>
      by_cases hcs : c = s
      · rcases hta : takeAfter ss cs with _ | rest
        · have hrec := ih cs
          obtain ⟨h0, t0, he, hp⟩ := hrec.1
          constructor
          · refine ⟨c :: h0, t0, ?_, ?_⟩
            · simp [splitSepGo, hcs, hta, he, consHead]
            · exact List.cons_prefix_cons.2 ⟨rfl, hp⟩
          · intro p hpmem
            simp only [splitSepGo, if_pos hcs, hta, he, consHead, List.mem_cons] at hpmem
            rcases hpmem with rfl | hpt
            · exact (List.cons_prefix_cons.2 ⟨rfl, hp⟩).isInfix
            · exact ((hrec.2 p (by simp [he, hpt])).trans (List.suffix_cons c cs).isInfix)
        · have hrec := ih rest
          have hrs : rest <:+ cs := takeAfter_suffix ss cs rest hta
          constructor
          · exact ⟨[], splitSepGo s ss fuel rest, by simp [splitSepGo, hcs, hta], List.nil_prefix⟩
          · intro p hpmem
            simp only [splitSepGo, if_pos hcs, hta, List.mem_cons] at hpmem
            rcases hpmem with rfl | hpt
            · exact ⟨[], c :: cs, by simp⟩
            · exact (hrec.2 p hpt).trans ((hrs.trans (List.suffix_cons c cs)).isInfix)
      · have hrec := ih cs
        obtain ⟨h0, t0, he, hp⟩ := hrec.1
        constructor
        · refine ⟨c :: h0, t0, ?_, ?_⟩
          · simp [splitSepGo, hcs, he, consHead]
          · exact List.cons_prefix_cons.2 ⟨rfl, hp⟩
        · intro p hpmem
          simp only [splitSepGo, if_neg hcs, he, consHead, List.mem_cons] at hpmem
          rcases hpmem with rfl | hpt
          · exact (List.cons_prefix_cons.2 ⟨rfl, hp⟩).isInfix
          · exact ((hrec.2 p (by simp [he, hpt])).trans (List.suffix_cons c cs).isInfix)

/-- Every piece produced by the embedded `split` is a contiguous segment of
the input. -/
theorem splitSep_isInf {s : Char} {ss : List Char} {p l : List Char}
    (hp : p ∈ splitSep s ss l) : p <:+: l :=
  (splitSepGo_parts s ss l.length l).2 p hp

theorem hasPrefixL_iff : ∀ (n h : List Char), hasPrefixL n h = true ↔ n <+: h
  | [], h => by simp [hasPrefixL, List.nil_prefix]
  | a :: as, [] => by simp [hasPrefixL]
  | a :: as, b :: bs => by
      simp [hasPrefixL, List.cons_prefix_cons, hasPrefixL_iff as bs]

theorem containsSubL_iff : ∀ (n h : List Char), containsSubL n h = true ↔ n <:+: h
  | n, [] => by
      simp only [containsSubL, hasPrefixL_iff, List.infix_nil]
      constructor
      · intro h; simpa using List.prefix_nil.1 h
      · intro h; simp [h, List.nil_prefix]
  | n, c :: cs => by
      simp [containsSubL, hasPrefixL_iff, containsSubL_iff n cs, List.infix_cons_iff]

/-- `containsSub` decides substring containment. -/
theorem containsSub_iff (hay needle : String) :
    containsSub hay needle = true ↔ needle.toList <:+: hay.toList :=
  containsSubL_iff needle.toList hay.toList

/-!  Stability of the sort underlying `most_common`: sorting by count leaves
the subsequence of entries with any fixed count unchanged. -/

theorem filter_count_orderedInsert {α : Type} (c : Nat) (a : α × Nat)
    (l : List (α × Nat)) :
    (List.orderedInsert cntGE a l).filter (fun p => p.2 = c) =
      ((a :: l).filter (fun p => p.2 = c)) := by
  induction l with
  | nil => simp [List.orderedInsert]
  | cons b t ih =>
    by_cases hab : cntGE a b
    · rw [List.orderedInsert, if_pos hab]
    · rw [List.orderedInsert, if_neg hab]
      have hlt : a.2 < b.2 := Nat.lt_of_not_le hab
      by_cases hpa : a.2 = c
      · have hpb : ¬(b.2 = c) := fun hb => hab (show b.2 ≤ a.2 by omega)
        simp only [List.filter_cons, ih]
        simp [hpa, hpb]
      · simp only [List.filter_cons, ih]
        by_cases hpb : b.2 = c <;> simp [hpa, hpb]

theorem filter_count_insertionSort {α : Type} (c : Nat) (l : List (α × Nat)) :
    (List.insertionSort cntGE l).filter (fun p => p.2 = c) =
      l.filter (fun p => p.2 = c) := by
  induction l with
  | nil => rfl
  | cons x t ih =>
    rw [List.insertionSort, filter_count_orderedInsert]
    simp only [List.filter_cons, ih]

/-!  The aggregation keys fed into the left merge are distinct. -/

theorem groupbySize_keys_nodup (keys : List Cell) :
    ((groupbySize keys).map Prod.fst).Nodup :=
  counter_keys_nodup (keys.filterMap cellVal)

theorem wmCasesCount_keys (df : List CaseRow) (remedy_type : String) :
    (wmCasesCount df remedy_type).map Prod.fst = wmMembers df := by
  simp only [wmCasesCount, List.map_map]
  exact List.map_id _

theorem wmCasesCount_keys_nodup (df : List CaseRow) (remedy_type : String) :
    ((wmCasesCount df remedy_type).map Prod.fst).Nodup := by
  rw [wmCasesCount_keys]
  exact List.nodup_dedup _

/-!  Shape lemmas for `get_world_with_data`. -/

theorem gw_fst (world : List GeoRow) (df : List CaseRow) (remedy_type : String) :
    (get_world_with_data world df remedy_type).1 = df.map addRemedyCol := by
  unfold get_world_with_data
  split <;> rfl

theorem gw_ok {world : List GeoRow} {df : List CaseRow} {remedy_type : String}
    {res : List WorldDataRow}
    (h : (get_world_with_data world df remedy_type).2 = Except.ok res) :
    res = (leftMerge world (wmCasesCount df remedy_type)).map fillZero := by
  unfold get_world_with_data at h
  split at h
  · simpa using h.symm
  · simp at h

/-- `filterMap cellVal` keeps exactly the non-missing cells. -/
theorem filterMap_cellVal_len (l : List Cell) :
    (l.filterMap cellVal).length = (l.filter (fun c => c ≠ Cell.nan)).length := by
  induction l with
  | nil => rfl
  | cons c t ih =>
    cases c with
    | s v => simp [List.filterMap_cons, List.filter_cons, cellVal, ih]
    | nan => simp [List.filterMap_cons, List.filter_cons, cellVal, ih]

/-!  Lemmas about the merged-and-filled table. -/

theorem filled_name_map (world : List GeoRow) {cs : List (String × Nat)}
    (hk : (cs.map Prod.fst).Nodup) :
    ((leftMerge world cs).map fillZero).map (fun r => r.name) =
      world.map (fun g => g.name) := by
  rw [List.map_map]
  exact leftMerge_name_map world hk

theorem filled_mem_of_not_key (world : List GeoRow) {cs : List (String × Nat)}
    (g : GeoRow) (hg : g ∈ world) (h : g.name ∉ cs.map Prod.fst) :
    (⟨g.name, g.pop_est.getD 0, FCell.num 0, 0⟩ : WorldDataRow) ∈
      (leftMerge world cs).map fillZero := by
  have hm : (⟨g.name, g.pop_est, none, none⟩ : MergedRow) ∈ leftMerge world cs := by
    refine List.mem_flatten.2 ⟨mergeOne cs g, List.mem_map_of_mem _ hg, ?_⟩
    rw [mergeOne_of_not_mem g h]
    exact List.mem_singleton.2 rfl
  exact List.mem_map_of_mem fillZero hm

theorem filled_pop_mem (world : List GeoRow) (cs : List (String × Nat))
    (g : GeoRow) (hg : g ∈ world) (hpop : g.pop_est = none) :
    ∃ r ∈ (leftMerge world cs).map fillZero, r.name = g.name ∧ r.pop_est = 0 := by
  obtain ⟨m, hm, hname, hpopm⟩ := mergeOne_head_mem cs g
  have hmem : m ∈ leftMerge world cs :=
    List.mem_flatten.2 ⟨mergeOne cs g, List.mem_map_of_mem _ hg, hm⟩
  refine ⟨fillZero m, List.mem_map_of_mem fillZero hmem, hname, ?_⟩
  show m.pop_est.getD 0 = 0
  rw [hpopm, hpop]
  rfl

/-!  The claims. -/

/-- C1 (counterexample): the claim says the sum of per-key counts equals the
number of rows matching the filter predicate.  For the token-counting
aggregation of `prod_analysis.main` this fails: a single matching row whose
`Product chapters` cell is `"62, 63"` contributes two tokens, so the counter
sums to 2 while exactly one row matches the filter. -/
theorem claim_C1_counterexample :
    (dfTok.filter (typeMatches "Anti-dumping")).length = 1 ∧
      sumCounts (counter (clean_and_split
        ((dfTok.filter (typeMatches "Anti-dumping")).map
          (fun r => r.productChapters)))) = 2 := by
  decide

/-- C1 (amended): for the group-by-size aggregation over `Trading partners`,
the per-key counts sum to the number of filter-matching rows whose key cell
is non-missing (`groupby` drops missing keys); for the token-counting
aggregation, the per-token counts sum to the total number of tokens produced
by `clean_and_split`, not to the number of rows. -/
theorem claim_C1_theorem (df : List CaseRow) (remedy_type : String)
    (col : List Cell) :
    sumCounts (groupbySize ((df.filter (typeMatches remedy_type)).map
        (fun r => r.tradingPartners)))
      = ((df.filter (typeMatches remedy_type)).filter
          (fun r => r.tradingPartners ≠ Cell.nan)).length
    ∧ sumCounts (counter (clean_and_split col)) = (clean_and_split col).length := by
  constructor
  · rw [groupbySize, counter_sum, filterMap_cellVal_len, List.filter_map,
      List.length_map]
    rfl
  · rw [counter_sum]

/-- C2: for every input table and remedy type, the left join never drops nor
duplicates a geometry row: the joined output of both map pipelines lists
exactly the geometry table's names, in order, and so has exactly as many rows
as the geometry table (for `get_world_with_data`, whenever the column lookup
succeeds and a joined table is produced at all). -/
theorem claim_C2_theorem (world : List GeoRow) (df : List CaseRow)
    (remedy_type : String) :
    ((get_world_with_data_trading_partners world df remedy_type).map
        (fun r => r.name) = world.map (fun g => g.name)
      ∧ (get_world_with_data_trading_partners world df remedy_type).length
          = world.length)
    ∧ ∀ res, (get_world_with_data world df remedy_type).2 = Except.ok res →
        (res.map (fun r => r.name) = world.map (fun g => g.name)
          ∧ res.length = world.length) := by
  constructor
  · have hmap := filled_name_map world
      (groupbySize_keys_nodup ((df.filter (typeMatches remedy_type)).map
        (fun r => r.tradingPartners)))
    have hlen : ((leftMerge world (groupbySize
        ((df.filter (typeMatches remedy_type)).map
          (fun r => r.tradingPartners)))).map fillZero).length = world.length := by
      have := congrArg List.length hmap
      simpa using this
    exact ⟨hmap, hlen⟩
  · intro res hres
    rw [gw_ok hres]
    have hmap := filled_name_map world (wmCasesCount_keys_nodup df remedy_type)
    refine ⟨hmap, ?_⟩
    have := congrArg List.length hmap
    simpa using this

/-- C2 (witness): on the sample inputs the `get_world_with_data` lookup
succeeds, and the joined output lists the two geometry names exactly once
each. -/
theorem claim_C2_witness :
    (get_world_with_data sampleWorld sampleDf "Anti-dumping").2 =
        Except.ok [⟨"India", 5, FCell.s "India", 1⟩, ⟨"Brazil", 0, FCell.num 0, 0⟩]
      ∧ ([⟨"India", 5, FCell.s "India", 1⟩,
          ⟨"Brazil", 0, FCell.num 0, 0⟩] : List WorldDataRow).map (fun r => r.name)
            = sampleWorld.map (fun g => g.name)
      ∧ ([⟨"India", 5, FCell.s "India", 1⟩,
          ⟨"Brazil", 0, FCell.num 0, 0⟩] : List WorldDataRow).length
            = sampleWorld.length :=
  ⟨rfl, (claim_C2_theorem sampleWorld sampleDf "Anti-dumping").2 _ rfl⟩

/-- C3: every geometry entity whose name (under exact, case-sensitive string
equality) is not among the aggregation keys is present in the joined output
as a row with count exactly 0 (and the other right-hand column zero-filled
as well), in both map pipelines. -/
theorem claim_C3_theorem (world : List GeoRow) (df : List CaseRow)
    (remedy_type : String) (g : GeoRow) (hg : g ∈ world) :
    (g.name ∉ (groupbySize ((df.filter (typeMatches remedy_type)).map
          (fun r => r.tradingPartners))).map Prod.fst →
        (⟨g.name, g.pop_est.getD 0, FCell.num 0, 0⟩ : WorldDataRow) ∈
          get_world_with_data_trading_partners world df remedy_type)
    ∧ ∀ res, (get_world_with_data world df remedy_type).2 = Except.ok res →
        g.name ∉ wmMembers df →
          (⟨g.name, g.pop_est.getD 0, FCell.num 0, 0⟩ : WorldDataRow) ∈ res := by
  constructor
  · intro hkey
    exact filled_mem_of_not_key world g hg hkey
  · intro res hres hkey
    rw [gw_ok hres]
    refine filled_mem_of_not_key world g hg ?_
    rw [wmCasesCount_keys]
    exact hkey

/-- C3 (witness): Brazil is not an aggregation key of either pipeline on the
sample inputs and appears in both joined outputs with count 0. -/
theorem claim_C3_witness :
    (⟨"Brazil", 0, FCell.num 0, 0⟩ : WorldDataRow) ∈
        get_world_with_data_trading_partners sampleWorld sampleDf "Anti-dumping"
      ∧ (⟨"Brazil", 0, FCell.num 0, 0⟩ : WorldDataRow) ∈
          ([⟨"India", 5, FCell.s "India", 1⟩,
            ⟨"Brazil", 0, FCell.num 0, 0⟩] : List WorldDataRow) :=
  ⟨(claim_C3_theorem sampleWorld sampleDf "Anti-dumping" ⟨"Brazil", none⟩
      (by decide)).1 (by decide),
   (claim_C3_theorem sampleWorld sampleDf "Anti-dumping" ⟨"Brazil", none⟩
      (by decide)).2 _ rfl (by decide)⟩

/-- C4: `clean_and_split` coerces a missing value to its string
representation before splitting.  The missing value of the loaded table is
the pandas float NaN, whose Python string representation is `"nan"`, so on
`["62, 63", NaN, "64"]` the output is exactly `["62", "63", "nan", "64"]`. -/
theorem claim_C4_theorem :
    clean_and_split [Cell.s "62, 63", Cell.nan, Cell.s "64"]
      = ["62", "63", "nan", "64"] := by
  decide

/-- C5 (counterexample): the claim says every output token of
`clean_and_split` is non-empty, but an empty raw field yields the empty
token. -/
theorem claim_C5_counterexample : clean_and_split [Cell.s ""] = [""] := by
  decide

/-- C5 (amended): every token produced by `clean_and_split` is trimmed of
surrounding whitespace (stripping it again changes nothing), but tokens can
be empty. -/
theorem claim_C5_theorem (col : List Cell) (t : String)
    (ht : t ∈ clean_and_split col) : pyStrip t = t := by
  simp only [clean_and_split, List.mem_map] at ht
  obtain ⟨u, _, rfl⟩ := ht
  exact pyStrip_idem u

/-- C5 (witness): the token `"62"` of `clean_and_split [" 62 "]` is its own
trim. -/
theorem claim_C5_witness :
    "62" ∈ clean_and_split [Cell.s " 62 "] ∧ pyStrip "62" = "62" :=
  ⟨by decide, claim_C5_theorem [Cell.s " 62 "] "62" (by decide)⟩

/-- C6: every ranking produced by `get_top_partners` has length at most
`top_n` (which defaults to 3), its (partner, count) pairs are ordered by
count descending (`cntGE`), and for every count value the entries carrying
that count form an initial segment of those entries in the counter's
first-encounter order — i.e. ties appear in stable, first-encountered
order. -/
theorem claim_C6_theorem (data : List CaseRow) (chapters : List String)
    (top_n : Nat) (p : String × List (Cell × Nat))
    (hp : p ∈ get_top_partners data chapters top_n) :
    p.2.length ≤ top_n
    ∧ p.2.Pairwise cntGE
    ∧ ∀ c, p.2.filter (fun q => q.2 = c) <+:
        (counter ((data.filter (chapterMatches p.1)).map
          (fun r => r.tradingPartners))).filter (fun q => q.2 = c) := by
  simp only [get_top_partners, List.mem_map] at hp
  obtain ⟨chapter, _, rfl⟩ := hp
  refine ⟨List.length_take_le top_n _, ?_, ?_⟩
  · exact List.Pairwise.sublist (List.take_sublist _ _)
      (List.sorted_insertionSort cntGE _)
  · intro c
    have hpre := List.take_prefix top_n (List.insertionSort cntGE
      (counter ((data.filter (chapterMatches chapter)).map
        (fun r => r.tradingPartners))))
    have := hpre.filter (fun q => q.2 = c)
    rwa [filter_count_insertionSort] at this

/-- C6 (witness): on `data3` with chapter `"29"`, the ranking is
`[(China, 2), (Japan, 1)]`: length ≤ 3, counts descending, ties stable. -/
theorem claim_C6_witness :
    ("29", [(Cell.s "China", 2), (Cell.s "Japan", 1)]) ∈
        get_top_partners data3 ["29"] 3
    ∧ ([(Cell.s "China", 2), (Cell.s "Japan", 1)] : List (Cell × Nat)).length ≤ 3
    ∧ List.Pairwise cntGE [(Cell.s "China", 2), (Cell.s "Japan", 1)]
    ∧ ([(Cell.s "China", 2), (Cell.s "Japan", 1)] : List (Cell × Nat)).filter
        (fun q => q.2 = 1) <+:
        (counter ((data3.filter (chapterMatches "29")).map
          (fun r => r.tradingPartners))).filter (fun q => q.2 = 1) := by
  have h := claim_C6_theorem data3 ["29"] 3
    ("29", [(Cell.s "China", 2), (Cell.s "Japan", 1)]) (by decide)
  exact ⟨by decide, h.1, h.2.1, h.2.2 1⟩

/-- C7 (counterexample): the claim says the rows counted for a chapter code
are exactly those whose chapter list contains that code.  With chapter code
`"2"` and a single row whose chapter list is `["29"]`, the row is counted
(substring match) although `"2"` is not among its chapter tokens. -/
theorem claim_C7_counterexample :
    (dfChap.filter (chapterMatches "2")).length = 1
    ∧ "2" ∉ clean_and_split (dfChap.map (fun r => r.productChapters)) := by
  decide

/-- C7 (amended): the filter of `get_top_partners` tests substring
containment of the chapter code in the raw `Product chapters` cell, a
superset of token membership: every row whose (non-missing) cell yields the
chapter code as one of its `clean_and_split` tokens is counted, but rows
merely containing the code as a substring are counted too. -/
theorem claim_C7_theorem (data : List CaseRow) (chapter : String) (r : CaseRow)
    (hr : r ∈ data) (v : String) (hv : r.productChapters = Cell.s v)
    (ht : chapter ∈ clean_and_split [r.productChapters]) :
    r ∈ data.filter (chapterMatches chapter) := by
  refine List.mem_filter.2 ⟨hr, ?_⟩
  have hmatch : chapterMatches chapter r = containsSub v chapter := by
    rw [chapterMatches, hv]
  rw [hmatch, containsSub_iff]
  rw [hv] at ht
  simp only [clean_and_split, List.map_cons, List.map_nil, List.flatten,
    List.append_nil, List.mem_map] at ht
  obtain ⟨u, hu, rfl⟩ := ht
  simp only [pySplit, List.mem_map] at hu
  obtain ⟨part, hpart, rfl⟩ := hu
  have h1 : stripChars part <:+: part := stripChars_isInf part
  have h2 : part <:+: (pyStr (Cell.s v)).toList := splitSep_isInf hpart
  exact h1.trans h2

/-- C7 (witness): `"30"` is a chapter token of `rowJP`, so `rowJP` is among
the rows counted for chapter `"30"`. -/
theorem claim_C7_witness :
    rowJP ∈ [rowJP]
    ∧ "30" ∈ clean_and_split [rowJP.productChapters]
    ∧ rowJP ∈ [rowJP].filter (chapterMatches "30") :=
  ⟨by decide, by decide,
   claim_C7_theorem [rowJP] "30" rowJP (by decide) "29, 30" rfl (by decide)⟩

/-- C8 (counterexample): the claim says that when no row matches a remedy
type the run does not fail.  For `get_world_with_data` this is false: with a
table whose only remedy type is `Anti-dumping`, requesting `Countervailing`
makes the cross-tabulation column lookup fail (a `KeyError` aborting the
run) instead of producing an all-zero joined table. -/
theorem claim_C8_counterexample :
    (get_world_with_data sampleWorld sampleDf "Countervailing").2
      = Except.error () := by
  rfl

/-- C8 (amended): when no row matches the requested remedy type, the
trading-partner pipeline indeed proceeds and joins an all-zero count onto
every geometry row; the `get_world_with_data` pipeline instead fails with a
key-lookup error whenever the requested remedy type occurs in no row's
derived `Remedy Type` column. -/
theorem claim_C8_theorem (world : List GeoRow) (df : List CaseRow)
    (remedy_type : String) :
    (df.filter (typeMatches remedy_type) = [] →
      ∀ r ∈ get_world_with_data_trading_partners world df remedy_type,
        r.case_count = 0)
    ∧ (remedy_type ∉ wmCols df →
        (get_world_with_data world df remedy_type).2 = Except.error ()) := by
  constructor
  · intro h r hr
    simp only [get_world_with_data_trading_partners, h] at hr
    obtain ⟨m, hm, rfl⟩ := List.mem_map.1 hr
    obtain ⟨ms, hms, hmm⟩ := List.mem_flatten.1 hm
    obtain ⟨g, _, rfl⟩ := List.mem_map.1 hms
    have hmerge : mergeOne (groupbySize (([] : List CaseRow).map
        (fun r => r.tradingPartners))) g = [⟨g.name, g.pop_est, none, none⟩] := rfl
    rw [hmerge] at hmm
    rw [List.mem_singleton.1 hmm]
    rfl
  · intro h
    simp only [get_world_with_data, if_neg h]

/-- C8 (witness): the sample table has no `Countervailing` rows; the
trading-partner pipeline still produces India with count 0, while the
`get_world_with_data` pipeline errors out. -/
theorem claim_C8_witness :
    (⟨"India", 5, FCell.num 0, 0⟩ : WorldDataRow).case_count = 0
    ∧ (get_world_with_data sampleWorld sampleDf "Countervailing").2
        = Except.error () :=
  ⟨(claim_C8_theorem sampleWorld sampleDf "Countervailing").1 rfl _ (by decide),
   (claim_C8_theorem sampleWorld sampleDf "Countervailing").2 (by decide)⟩

/-- C9 (counterexample): the claim says no pipeline operation modifies the
input table.  `get_world_with_data` does: after the call on `dfSlash` the
input table carries a new `Remedy Type` column, so it differs from the
original. -/
theorem claim_C9_counterexample :
    (get_world_with_data sampleWorld dfSlash "Anti-dumping").1 ≠ dfSlash := by
  decide

/-- C9 (amended): `get_world_with_data` modifies its input table exactly by
assigning the `Remedy Type` column (the last `/`-separated component of
`Type`, stripped): row for row, every original column is unchanged and only
`remedyTypeCol` is newly populated.  (The trading-partner pipeline is a pure
function of the unmodified table.) -/
theorem claim_C9_theorem (world : List GeoRow) (df : List CaseRow)
    (remedy_type : String) :
    (get_world_with_data world df remedy_type).1 = df.map addRemedyCol
    ∧ List.Forall₂ (fun r r2 =>
        r2.typ = r.typ ∧ r2.tradingPartners = r.tradingPartners
        ∧ r2.memberObserver = r.memberObserver
        ∧ r2.productChapters = r.productChapters
        ∧ r2.products = r.products
        ∧ r2.remedyTypeCol = some (remedyTypeOf r.typ))
        df ((get_world_with_data world df remedy_type).1) := by
  refine ⟨gw_fst world df remedy_type, ?_⟩
  rw [gw_fst world df remedy_type]
  refine List.forall₂_map_right_iff.2 (List.forall₂_same.2 fun r _ => ?_)
  exact ⟨rfl, rfl, rfl, rfl, rfl, rfl⟩

/-- C10: the post-join `fillna(0)` replaces missing values in every column,
not only the count column: a geometry row with a missing `pop_est` attribute
appears in both pipelines' joined outputs with `pop_est` set to 0. -/
theorem claim_C10_theorem (world : List GeoRow) (df : List CaseRow)
    (remedy_type : String) (g : GeoRow) (hg : g ∈ world)
    (hpop : g.pop_est = none) :
    (∃ r ∈ get_world_with_data_trading_partners world df remedy_type,
        r.name = g.name ∧ r.pop_est = 0)
    ∧ ∀ res, (get_world_with_data world df remedy_type).2 = Except.ok res →
        ∃ r ∈ res, r.name = g.name ∧ r.pop_est = 0 := by
  constructor
  · exact filled_pop_mem world _ g hg hpop
  · intro res hres
    rw [gw_ok hres]
    exact filled_pop_mem world _ g hg hpop

/-- C10 (witness): Brazil has a missing `pop_est` in the sample geometry
table and appears in both joined outputs with `pop_est = 0`. -/
theorem claim_C10_witness :
    (∃ r ∈ get_world_with_data_trading_partners sampleWorld sampleDf
        "Anti-dumping", r.name = "Brazil" ∧ r.pop_est = 0)
    ∧ ∃ r ∈ ([⟨"India", 5, FCell.s "India", 1⟩,
        ⟨"Brazil", 0, FCell.num 0, 0⟩] : List WorldDataRow),
        r.name = "Brazil" ∧ r.pop_est = 0 :=
  ⟨(claim_C10_theorem sampleWorld sampleDf "Anti-dumping" ⟨"Brazil", none⟩
      (by decide) rfl).1,
   (claim_C10_theorem sampleWorld sampleDf "Anti-dumping" ⟨"Brazil", none⟩
      (by decide) rfl).2 _ rfl⟩

end ADDCVD
